import Mathlib

/-!
Verification of the dotnetdll resolver (`src/dll.rs`, `DLL::resolve`).

The definitions below are a shallow embedding of the resolver passes, translated
from the Rust source.  Machine integers are modelled as `Nat`; the only place
where wrap-around matters is the pervasive `x - 1` conversion of 1-based table
indices to 0-based ones, which in release Rust wraps `0 - 1` to `usize::MAX`
(and is then always rejected by the subsequent bounds check); `usize_sub1`
models that exactly.  Fallible paths are modelled with `ROutcome`:
`throw!` (resolver errors) become `.error`, `unreachable!()`, `unwrap()` and
panicking indexing become `.panic`, and reading a slot of one of the
pre-allocated lookup vectors (`new_with_len!`, i.e. `Vec::set_len` without
initialization) that was never written becomes `.uninit`.
-/

namespace DotnetDLL

/-- Outcome of executing a fragment of the Rust resolver: a normal value, a
recoverable resolver error (`throw!`, i.e. `Err(CLI(..))`), a panic
(`unreachable!()`, `unwrap()` on `None`, out-of-bounds indexing), or undefined
behavior (reading a pre-allocated `Vec` slot that was never initialized). -/
inductive ROutcome (α : Type) where
  | ok : α → ROutcome α
  | error : String → ROutcome α
  | panic : ROutcome α
  | uninit : ROutcome α
deriving DecidableEq, Repr

def ROutcome.map (f : α → β) : ROutcome α → ROutcome β
  | .ok a => .ok (f a)
  | .error e => .error e
  | .panic => .panic
  | .uninit => .uninit

def ROutcome.bind : ROutcome α → (α → ROutcome β) → ROutcome β
  | .ok a, f => f a
  | .error e, _ => .error e
  | .panic, _ => .panic
  | .uninit, _ => .uninit

/-- `true` exactly when the outcome is a resolver error (`Err(CLI(..))`). -/
def ROutcome.isError : ROutcome α → Bool
  | .error _ => true
  | _ => false

/-- Rust `x - 1` on `usize` in release mode: `0 - 1` wraps to `usize::MAX`.
Every use in the resolver converts a 1-based table index to 0-based and is
followed by a bounds check against a table length, so modelling the wrapped
value as `2^64 - 1` is exact. -/
def usize_sub1 (x : Nat) : Nat :=
  if x = 0 then 2 ^ 64 - 1 else x - 1

/-- Modelled from the spec: the `check_bitmask!` macro (its definition lives in
a module of this repository that is not under `src/`); per the spec's flag
tables it tests whether all bits of `mask` are set in `flags`.  Every use in
`resolve` passes a single-bit mask. -/
def check_bitmask (flags mask : Nat) : Bool :=
  flags &&& mask = mask

/-! ## C8: method body format and management (`dll.rs` lines 719-730) -/

inductive BodyFormat where
  | IL
  | Native
  | Runtime
deriving DecidableEq, Repr

inductive BodyManagement where
  | Unmanaged
  | Managed
deriving DecidableEq, Repr

/-- `dll.rs` 719-725: `match m.impl_flags & 0x3`. -/
def body_format (impl_flags : Nat) : ROutcome BodyFormat :=
  match impl_flags &&& 0x3 with
  | 0x0 => .ok .IL
  | 0x1 => .ok .Native
  | 0x2 => .error "invalid code type value OPTIL (0x2) for method"
  | 0x3 => .ok .Runtime
  | _ + 4 => .panic

/-- `dll.rs` 726-730: `match m.impl_flags & 0x4`. -/
def body_management (impl_flags : Nat) : ROutcome BodyManagement :=
  match impl_flags &&& 0x4 with
  | 0x0 => .ok .Unmanaged
  | 0x4 => .ok .Managed
  | _ => .panic

/-! ## C6: TypeDef layout decoding (`dll.rs` lines 266-289) -/

structure SequentialLayout where
  packing_size : Nat
  class_size : Nat
deriving DecidableEq, Repr

structure ExplicitLayout where
  class_size : Nat
deriving DecidableEq, Repr

inductive Layout where
  | Automatic
  | Sequential : Option SequentialLayout → Layout
  | Explicit : Option ExplicitLayout → Layout
deriving DecidableEq, Repr

/-- One row of the `ClassLayout` table; `parent` is a 1-based `TypeDef` index. -/
structure ClassLayoutRow where
  packing_size : Nat
  class_size : Nat
  parent : Nat
deriving DecidableEq, Repr

/-- `dll.rs` 266-289: layout decoding of one `TypeDef` row.  `idx` is the
0-based position of the row, `flags` its raw flags field.  The source compares
`c.parent.0 - 1 == idx`; since `parent - 1` wraps at `0`, this equals
`c.parent = idx + 1` for every index that can be in bounds. -/
def decode_layout (class_layout : List ClassLayoutRow) (idx flags : Nat) :
    ROutcome Layout :=
  let layout_flags := flags &&& 0x18
  if layout_flags = 0x00 then .ok .Automatic
  else
    let layout := class_layout.find? fun c => c.parent = idx + 1
    match layout_flags with
    | 0x08 => .ok (.Sequential (layout.map fun l =>
        { packing_size := l.packing_size, class_size := l.class_size }))
    | 0x10 => .ok (.Explicit (layout.map fun l => { class_size := l.class_size }))
    | _ => .panic

/-! ## C1: generic parameter variance (`dll.rs` lines 891-898) -/

/-- Data model of §3.2 of the spec: the `Variance` enum of the resolved
representation (declared in a module of this repository that is not under
`src/`; the spec gives its three constructors). -/
inductive Variance where
  | Invariant
  | Covariant
  | Contravariant
deriving DecidableEq, Repr

/-- `dll.rs` 891-898: `match p.flags & 0x3` inside the generic-parameter pass.
Note that the `0x2` arm of the source reads `Variance::Invariant`. -/
def decode_variance (flags : Nat) : ROutcome Variance :=
  match flags &&& 0x3 with
  | 0x0 => .ok .Invariant
  | 0x1 => .ok .Covariant
  | 0x2 => .ok .Invariant
  | 0x3 => .error "invalid variance value 0x3 for generic parameter"
  | _ + 4 => .panic

/-! ## C5: NestedClass pass (`dll.rs` lines 310-329)

Only the `encloser` field of each `TypeDefinition` is touched by this pass, so
the state is modelled as the list of `encloser` fields (all `none` after the
TypeDef pre-pass). -/

/-- One row of the `NestedClass` table (both columns are 1-based `TypeDef`
indices). -/
structure NestedClassRow where
  nested_class : Nat
  enclosing_class : Nat
deriving DecidableEq, Repr

/-- `dll.rs` 310-329, one iteration of the `for n in &tables.nested_class`
loop: bounds-check `nested_class` via `types.get_mut`, bounds-check
`enclosing_class - 1` against `types_len`, then set the encloser. -/
def nested_class_step (types : List (Option Nat)) (n : NestedClassRow) :
    ROutcome (List (Option Nat)) :=
  let nest_idx := usize_sub1 n.nested_class
  match types.get? nest_idx with
  | some _ =>
    let enclose_idx := usize_sub1 n.enclosing_class
    if enclose_idx < types.length then
      .ok (types.set nest_idx (some enclose_idx))
    else
      .error "invalid enclosing type index for nested class declaration"
  | none => .error "invalid type index for nested class declaration"

/-- The whole `NestedClass` loop of `dll.rs` 310-329. -/
def nested_class_pass :
    List (Option Nat) → List NestedClassRow → ROutcome (List (Option Nat))
  | types, [] => .ok types
  | types, n :: rest =>
    match nested_class_step types n with
    | .ok t => nested_class_pass t rest
    | .error e => .error e
    | .panic => .panic
    | .uninit => .uninit

theorem nested_class_step_ok {types t : List (Option Nat)} {r : NestedClassRow}
    (h : nested_class_step types r = .ok t) :
    ∃ i e, e < types.length ∧ t = types.set i (some e) := by
  unfold nested_class_step at h
  dsimp only at h
  split at h
  · split at h
    · cases h
      exact ⟨usize_sub1 r.nested_class, usize_sub1 r.enclosing_class, by
        constructor <;> first | assumption | rfl⟩
    · cases h
  · cases h

/-! ## C7: exception data sections (`dll.rs` lines 1935-1996) -/

inductive ExceptionKind where
  | TypedException : Nat → ExceptionKind
  | Filter : Nat → ExceptionKind
  | Finally
  | Fault
deriving DecidableEq, Repr

/-- One raw exception-handling clause as read from a method body data
section. -/
structure RawExceptionClause where
  flags : Nat
  try_offset : Nat
  try_length : Nat
  handler_offset : Nat
  handler_length : Nat
  class_token_or_filter : Nat
deriving DecidableEq, Repr

/-- A resolved exception clause; all offsets and lengths are instruction
indices.  `TypedException` keeps the raw class token: its conversion
(`convert::type_token`) is delegated to the type-reference converter and is
outside this claim. -/
structure ExceptionClause where
  kind : ExceptionKind
  try_offset : Nat
  try_length : Nat
  handler_offset : Nat
  handler_length : Nat
deriving DecidableEq, Repr

/-- `dll.rs` 1943-1962, the `get_offset!` macro: translate a byte offset into
an instruction index via `instr_offsets`.  `instr_offsets.iter().max().unwrap()`
panics when the method has no instructions. -/
def get_offset (instr_offsets : List Nat) (byte : Nat) : ROutcome Nat :=
  match instr_offsets.max? with
  | none => .panic
  | some max =>
    if byte = max + 1 then .ok instr_offsets.length
    else
      match instr_offsets.findIdx? (fun i => i = byte) with
      | some pos => .ok pos
      | none => .error "could not find corresponding instruction for offset"

/-- `dll.rs` 1979-1988: translate the four clause offsets/lengths once the
kind is known (the source computes `try_offset`, `handler_offset`, then the
two lengths as differences of translated end offsets). -/
def attach_clause_offsets (instr_offsets : List Nat) (h : RawExceptionClause)
    (kind : ExceptionKind) : ROutcome ExceptionClause :=
  (get_offset instr_offsets h.try_offset).bind fun try_offset =>
  (get_offset instr_offsets h.handler_offset).bind fun handler_offset =>
  (get_offset instr_offsets (h.try_offset + h.try_length)).bind fun try_end =>
  (get_offset instr_offsets (h.handler_offset + h.handler_length)).bind
    fun handler_end =>
  .ok { kind := kind, try_offset := try_offset,
        try_length := try_end - try_offset,
        handler_offset := handler_offset,
        handler_length := handler_end - handler_offset }

/-- `dll.rs` 1964-1977: `match h.flags` producing the exception kind (a
`Filter`'s operand is itself translated through `get_offset!`). -/
def decode_exception_kind (instr_offsets : List Nat) (h : RawExceptionClause) :
    ROutcome ExceptionKind :=
  match h.flags with
  | 0 => .ok (.TypedException h.class_token_or_filter)
  | 1 => (get_offset instr_offsets h.class_token_or_filter).map .Filter
  | 2 => .ok .Finally
  | 4 => .ok .Fault
  | _ => .error "invalid exception clause type"

/-- `dll.rs` 1964-1988: decode one exception clause (flag match at 1964-1977,
then offset translation). -/
def decode_exception_clause (instr_offsets : List Nat)
    (h : RawExceptionClause) : ROutcome ExceptionClause :=
  (decode_exception_kind instr_offsets h).bind
    (attach_clause_offsets instr_offsets h)

theorem attach_clause_offsets_kind {instr_offsets : List Nat}
    {h : RawExceptionClause} {kind : ExceptionKind} {e : ExceptionClause}
    (ha : attach_clause_offsets instr_offsets h kind = .ok e) :
    e.kind = kind := by
  unfold attach_clause_offsets at ha
  cases h1 : get_offset instr_offsets h.try_offset <;>
    rw [h1] at ha <;> simp only [ROutcome.bind] at ha <;>
    try exact ROutcome.noConfusion ha
  cases h2 : get_offset instr_offsets h.handler_offset <;>
    rw [h2] at ha <;> simp only [ROutcome.bind] at ha <;>
    try exact ROutcome.noConfusion ha
  cases h3 : get_offset instr_offsets (h.try_offset + h.try_length) <;>
    rw [h3] at ha <;> simp only [ROutcome.bind] at ha <;>
    try exact ROutcome.noConfusion ha
  cases h4 : get_offset instr_offsets (h.handler_offset + h.handler_length) <;>
    rw [h4] at ha <;> simp only [ROutcome.bind] at ha <;>
    try exact ROutcome.noConfusion ha
  cases ha
  rfl

/-! ## C4: pre-allocated global lookup vectors (`dll.rs` 592-602, 604-640,
649-662)

`new_with_len!` allocates a vector and calls `Vec::set_len` without
initializing any element; a slot is modelled as `Option α` with `none` for
"never written", and an in-bounds read of a `none` slot is undefined behavior
(`.uninit`). -/

/-- `new_with_len!` (`dll.rs` 592-602): `len` uninitialized slots. -/
def new_with_len (len : Nat) : List (Option α) :=
  List.replicate len none

/-- A `TypeDef` row restricted to its `field_list` column (a 1-based index
into the `Field` table). -/
structure TypeDefFieldList where
  field_list : Nat
deriving DecidableEq, Repr

/-- `range_index!` (`dll.rs` 175-192) instantiated for `field_list`: the owned
`Field` range of the `TypeDef` row at position `idx` runs from
`field_list - 1` up to (excluding) the next row's `field_list - 1` (the last
row extends to the end of the `Field` table).  `tables.field.get(range)`
returns `None` — and the resolver throws — exactly when the range is inverted
or its end exceeds the table length. -/
def field_range (type_defs : List TypeDefFieldList) (fields_len idx : Nat)
    (row : TypeDefFieldList) : ROutcome (List Nat) :=
  let start := usize_sub1 row.field_list
  let stop := usize_sub1 (match type_defs.get? (idx + 1) with
    | some r => r.field_list
    | none => fields_len + 1)
  if start ≤ stop ∧ stop ≤ fields_len then
    .ok (List.range' start (stop - start))
  else
    .error "invalid field range in type_def"

/-- `dll.rs` 334-336 (`owned_fields`): the owned `Field` ranges of all
`TypeDef` rows, starting at row position `idx`. -/
def owned_field_ranges_from (type_defs : List TypeDefFieldList)
    (fields_len : Nat) : Nat → List TypeDefFieldList → ROutcome (List (List Nat))
  | _, [] => .ok []
  | idx, row :: rest =>
    (field_range type_defs fields_len idx row).bind fun r =>
    (owned_field_ranges_from type_defs fields_len (idx + 1) rest).map (r :: ·)

def owned_field_ranges (type_defs : List TypeDefFieldList) (fields_len : Nat) :
    ROutcome (List (List Nat)) :=
  owned_field_ranges_from type_defs fields_len 0 type_defs

/-- `dll.rs` 608-639, the write side of the fields pass: for the `Field` row
at global index `f_idx`, position `pos` of the owned range of type `type_idx`,
execute `fields[f_idx] = (type_idx, pos)` (the `Field` value itself is pushed
onto the owning type and is immaterial to the lookup vector). -/
def write_fields_range (lookup : List (Option (Nat × Nat))) (type_idx : Nat)
    (range : List Nat) : List (Option (Nat × Nat)) :=
  range.enum.foldl (fun lk p => lk.set p.2 (some (type_idx, p.1))) lookup

/-- The whole fields pass as far as the `fields` lookup vector is concerned:
`new_with_len!(fields, fields_len)` followed by the nested loops of
`dll.rs` 608-640. -/
def fields_lookup_model (type_defs : List TypeDefFieldList)
    (fields_len : Nat) : ROutcome (List (Option (Nat × Nat))) :=
  (owned_field_ranges type_defs fields_len).map fun ranges =>
    ranges.enum.foldl (fun lk p => write_fields_range lk p.1 p.2)
      (new_with_len fields_len)

/-- One row of the `FieldLayout` table (`field` is a 1-based `Field` index). -/
structure FieldLayoutRow where
  field : Nat
  offset : Nat
deriving DecidableEq, Repr

/-- `dll.rs` 651-662: the FieldLayout pass does `fields.get(idx)`.  An
out-of-range index throws; an in-bounds index yields the slot contents —
reading a slot that was never written is a read of uninitialized memory
(`.uninit`). -/
def field_layout_read (lookup : List (Option (Nat × Nat)))
    (l : FieldLayoutRow) : ROutcome (Nat × Nat) :=
  match lookup.get? (usize_sub1 l.field) with
  | some (some v) => .ok v
  | some none => .uninit
  | none => .error "bad parent field index for field layout specification"

/-! ## C9: custom attribute pass (`dll.rs` 1535-1840)

The pass is modelled by the sequence of attribute pushes it performs: the
state is the list of `(target, attribute)` pairs pushed so far, and each
`CustomAttribute` row either appends one pair, appends nothing (the three
unsupported parent kinds, which only `warn!`), or aborts resolution.  Index
validation of each arm follows the source; the indirections behind a
successful index (e.g. which concrete `attributes` vector the push lands in,
or the `.unwrap()`s inside the `DeclSecurity` arm) are beyond this claim and
collapsed into the target tag. -/

/-- The `CustomAttributeType` coded index (constructor column). -/
inductive CustomAttributeType where
  | MethodDef : Nat → CustomAttributeType
  | MemberRef : Nat → CustomAttributeType
  | Null
deriving DecidableEq, Repr

/-- The `HasCustomAttribute` coded index (parent column), 22 parent kinds. -/
inductive HasCustomAttribute where
  | MethodDef : Nat → HasCustomAttribute
  | Field : Nat → HasCustomAttribute
  | TypeRef : Nat → HasCustomAttribute
  | TypeDef : Nat → HasCustomAttribute
  | Param : Nat → HasCustomAttribute
  | InterfaceImpl : Nat → HasCustomAttribute
  | MemberRef : Nat → HasCustomAttribute
  | Module : Nat → HasCustomAttribute
  | DeclSecurity : Nat → HasCustomAttribute
  | Property : Nat → HasCustomAttribute
  | Event : Nat → HasCustomAttribute
  | ModuleRef : Nat → HasCustomAttribute
  | Assembly : Nat → HasCustomAttribute
  | AssemblyRef : Nat → HasCustomAttribute
  | File : Nat → HasCustomAttribute
  | ExportedType : Nat → HasCustomAttribute
  | ManifestResource : Nat → HasCustomAttribute
  | GenericParam : Nat → HasCustomAttribute
  | GenericParamConstraint : Nat → HasCustomAttribute
  | MethodSpec : Nat → HasCustomAttribute
  | StandAloneSig : Nat → HasCustomAttribute
  | TypeSpec : Nat → HasCustomAttribute
  | Null
deriving DecidableEq, Repr

/-- One row of the `CustomAttribute` table; `value` is a blob-heap index
(`0` is the null index). -/
structure CustomAttributeRow where
  parent : HasCustomAttribute
  attr_type : CustomAttributeType
  value : Nat
deriving DecidableEq, Repr

/-- The constructor of a resolved attribute: a method definition (by global
method index) or a member reference (by current method-ref vector index). -/
inductive CtorRef where
  | Definition : Nat → CtorRef
  | Reference : Nat → CtorRef
deriving DecidableEq, Repr

/-- A resolved custom attribute: constructor plus optional raw value blob. -/
structure Attr where
  constructor : CtorRef
  value : Option (List Nat)
deriving DecidableEq, Repr

/-- Where a pushed attribute lands (the entity kind and its index). -/
inductive AttrTarget where
  | onMethodDef : Nat → AttrTarget
  | onField : Nat → AttrTarget
  | onTypeRef : Nat → AttrTarget
  | onTypeDef : Nat → AttrTarget
  | onParam : Nat → AttrTarget
  | onInterfaceImpl : Nat → AttrTarget
  | onFieldRef : Nat → AttrTarget
  | onMethodRef : Nat → AttrTarget
  | onModule : AttrTarget
  | onDeclSecurity : Nat → AttrTarget
  | onProperty : Nat → AttrTarget
  | onEvent : Nat → AttrTarget
  | onModuleRef : Nat → AttrTarget
  | onAssembly : AttrTarget
  | onAssemblyRef : Nat → AttrTarget
  | onFile : Nat → AttrTarget
  | onExportedType : Nat → AttrTarget
  | onManifestResource : Nat → AttrTarget
  | onGenericParam : Nat → AttrTarget
  | onGenericParamConstraint : Nat → AttrTarget
deriving DecidableEq, Repr

/-- The context the pass consults: the blob heap (abstracted as a list of
records, per §4.1 of the spec the accessor only distinguishes a valid record
from a "bad heap index" error), the lengths of the entity vectors, the
`field_map`/`method_map` of the MemberRef twofold pass and the
`constraint_map` of the generic-parameter pass (association lists keyed by
original row index). -/
structure AttrCtx where
  blobs : List (List Nat)
  methods_len : Nat
  fields_len : Nat
  type_refs_len : Nat
  type_defs_len : Nat
  params_len : Nat
  interface_impls_len : Nat
  field_map : List (Nat × Nat)
  method_map : List (Nat × Nat)
  decl_security_len : Nat
  properties_len : Nat
  events_len : Nat
  module_refs_len : Nat
  has_assembly : Bool
  assembly_refs_len : Nat
  files_len : Nat
  exports_len : Nat
  resources_len : Nat
  generic_params_len : Nat
  constraint_map : List (Nat × (Nat × Nat))
deriving DecidableEq, Repr

/-- The blob heap accessor `heap_idx!(blobs, ..)`: out of range throws
"bad heap index". -/
def blob_at (blobs : List (List Nat)) (i : Nat) : ROutcome (List Nat) :=
  match blobs.get? i with
  | some b => .ok b
  | none => .error "bad heap index"

/-- `dll.rs` 1541-1567: decode the constructor coded index of one
`CustomAttribute` row. -/
def decode_ctor (ctx : AttrCtx) (t : CustomAttributeType) : ROutcome CtorRef :=
  match t with
  | .MethodDef i =>
    let m_idx := usize_sub1 i
    if m_idx < ctx.methods_len then .ok (.Definition m_idx)
    else .error "invalid method index for constructor of custom attribute"
  | .MemberRef i =>
    let r_idx := usize_sub1 i
    match ctx.method_map.lookup r_idx with
    | some m => .ok (.Reference m)
    | none => .error "invalid member reference index for constructor of custom attribute"
  | .Null => .error "invalid null index for constructor of custom attribute"

/-- `dll.rs` 1540-1569: build the `Attribute` value of one row — constructor
first, then `optional_idx!(blobs, a.value)`.  This happens before the parent
coded index is even inspected. -/
def decode_attr (ctx : AttrCtx) (row : CustomAttributeRow) : ROutcome Attr :=
  (decode_ctor ctx row.attr_type).bind fun ctor =>
  (if row.value = 0 then .ok none else (blob_at ctx.blobs row.value).map some).bind
    fun v => .ok { constructor := ctor, value := v }

/-- `dll.rs` 1594-1839: one iteration of the custom-attribute loop.  `pushes`
is the list of attribute pushes performed so far; every supported parent arm
bounds-checks its index exactly as the source does and then appends one push,
the `MethodSpec` / `StandAloneSig` / `TypeSpec` arms emit a warning and append
nothing, and `Null` (or any failed check) aborts with an error. -/
def attribute_step (ctx : AttrCtx) (pushes : List (AttrTarget × Attr))
    (row : CustomAttributeRow) : ROutcome (List (AttrTarget × Attr)) :=
  (decode_attr ctx row).bind fun attr =>
  match row.parent with
  | .MethodDef i =>
    let m_idx := usize_sub1 i
    if m_idx < ctx.methods_len then .ok (pushes ++ [(.onMethodDef m_idx, attr)])
    else .error "invalid method index for parent of custom attribute"
  | .Field i =>
    let f_idx := usize_sub1 i
    if f_idx < ctx.fields_len then .ok (pushes ++ [(.onField f_idx, attr)])
    else .error "invalid field index for parent of custom attribute"
  | .TypeRef i =>
    let r_idx := usize_sub1 i
    if r_idx < ctx.type_refs_len then .ok (pushes ++ [(.onTypeRef r_idx, attr)])
    else .error "invalid type reference index for parent of custom attribute"
  | .TypeDef i =>
    let t_idx := usize_sub1 i
    if t_idx < ctx.type_defs_len then .ok (pushes ++ [(.onTypeDef t_idx, attr)])
    else .error "invalid type definition index for parent of custom attribute"
  | .Param i =>
    let p_idx := usize_sub1 i
    if p_idx < ctx.params_len then .ok (pushes ++ [(.onParam p_idx, attr)])
    else .error "invalid parameter index for parent of custom attribute"
  | .InterfaceImpl i =>
    let i_idx := usize_sub1 i
    if i_idx < ctx.interface_impls_len then
      .ok (pushes ++ [(.onInterfaceImpl i_idx, attr)])
    else .error "invalid interface implementation index for parent of custom attribute"
  | .MemberRef i =>
    let m_idx := usize_sub1 i
    match ctx.field_map.lookup m_idx with
    | some f => .ok (pushes ++ [(.onFieldRef f, attr)])
    | none =>
      match ctx.method_map.lookup m_idx with
      | some m => .ok (pushes ++ [(.onMethodRef m, attr)])
      | none => .error "invalid member reference index for parent of custom attribute"
  | .Module _ => .ok (pushes ++ [(.onModule, attr)])
  | .DeclSecurity i =>
    let s_idx := usize_sub1 i
    if s_idx < ctx.decl_security_len then
      .ok (pushes ++ [(.onDeclSecurity s_idx, attr)])
    else .error "invalid security declaration index for parent of custom attribute"
  | .Property i =>
    let p_idx := usize_sub1 i
    if p_idx < ctx.properties_len then .ok (pushes ++ [(.onProperty p_idx, attr)])
    else .error "invalid property index for parent of custom attribute"
  | .Event i =>
    let e_idx := usize_sub1 i
    if e_idx < ctx.events_len then .ok (pushes ++ [(.onEvent e_idx, attr)])
    else .error "invalid event index for parent of custom attribute"
  | .ModuleRef i =>
    let m_idx := usize_sub1 i
    if m_idx < ctx.module_refs_len then .ok (pushes ++ [(.onModuleRef m_idx, attr)])
    else .error "invalid module reference index for parent of custom attribute"
  | .Assembly _ =>
    if ctx.has_assembly then .ok (pushes ++ [(.onAssembly, attr)])
    else .error "custom attribute has the module assembly as a parent, but this module does not have an assembly"
  | .AssemblyRef i =>
    let r_idx := usize_sub1 i
    if r_idx < ctx.assembly_refs_len then
      .ok (pushes ++ [(.onAssemblyRef r_idx, attr)])
    else .error "invalid assembly reference index for parent of custom attribute"
  | .File i =>
    let f_idx := usize_sub1 i
    if f_idx < ctx.files_len then .ok (pushes ++ [(.onFile f_idx, attr)])
    else .error "invalid file index for parent of custom attribute"
  | .ExportedType i =>
    let e_idx := usize_sub1 i
    if e_idx < ctx.exports_len then .ok (pushes ++ [(.onExportedType e_idx, attr)])
    else .error "invalid exported type index for parent of custom attribute"
  | .ManifestResource i =>
    let r_idx := usize_sub1 i
    if r_idx < ctx.resources_len then
      .ok (pushes ++ [(.onManifestResource r_idx, attr)])
    else .error "invalid manifest resource index for parent of custom attribute"
  | .GenericParam i =>
    let g_idx := usize_sub1 i
    if g_idx < ctx.generic_params_len then
      .ok (pushes ++ [(.onGenericParam g_idx, attr)])
    else .error "invalid generic parameter index for parent of custom attribute"
  | .GenericParamConstraint i =>
    let g_idx := usize_sub1 i
    match ctx.constraint_map.lookup g_idx with
    | some _ => .ok (pushes ++ [(.onGenericParamConstraint g_idx, attr)])
    | none => .error "invalid generic constraint index for parent of custom attribute"
  | .MethodSpec _ => .ok pushes
  | .StandAloneSig _ => .ok pushes
  | .TypeSpec _ => .ok pushes
  | .Null => .error "invalid null index for parent of custom attribute"

/-- The whole custom-attribute loop of `dll.rs` 1535-1840. -/
def attributes_pass (ctx : AttrCtx) :
    List (AttrTarget × Attr) → List CustomAttributeRow →
    ROutcome (List (AttrTarget × Attr))
  | pushes, [] => .ok pushes
  | pushes, row :: rest =>
    match attribute_step ctx pushes row with
    | .ok p => attributes_pass ctx p rest
    | .error e => .error e
    | .panic => .panic
    | .uninit => .uninit

/-! ## C2 / C3: method extraction and the method-semantics pass
(`dll.rs` 1168-1187 and 1254-1317)

A method is abstracted to its identity (the `MethodDef` row it came from, a
`Nat`); the per-type data a `TypeDefinition` holds is split into the three
parallel vectors the pass touches (top-level method list, properties, events).
`Event::add_listener` / `remove_listener` are not optional in the source (the
events pass fills them); they are `Option Nat` here so that states before and
after that pass are both representable — the general semantics pass modelled
below never writes them. -/

inductive MethodMemberIndex where
  | Method : Nat → MethodMemberIndex
  | PropertyGetter : Nat → MethodMemberIndex
  | PropertySetter : Nat → MethodMemberIndex
  | PropertyOther : Nat → Nat → MethodMemberIndex
  | EventAdd : Nat → MethodMemberIndex
  | EventRemove : Nat → MethodMemberIndex
  | EventRaise : Nat → MethodMemberIndex
  | EventOther : Nat → Nat → MethodMemberIndex
deriving DecidableEq, Repr

/-- An entry of the global `methods` lookup vector. -/
structure MethodIndex where
  parent_type : Nat
  member : MethodMemberIndex
deriving DecidableEq, Repr

/-- The accessor slots of one resolved `Property`. -/
structure PropertySlots where
  getter : Option Nat
  setter : Option Nat
  other : List Nat
deriving DecidableEq, Repr

/-- The listener slots of one resolved `Event`. -/
structure EventSlots where
  add_listener : Option Nat
  remove_listener : Option Nat
  raise_event : Option Nat
  other : List Nat
deriving DecidableEq, Repr

/-- The state the method-semantics pass operates on: per-type method lists,
properties and events, the global `methods` lookup, and the pre-allocated
`properties`/`events` lookup vectors (`none` = never-initialized slot). -/
structure SemState where
  type_methods : List (List Nat)
  type_props : List (List PropertySlots)
  type_events : List (List EventSlots)
  methods : List MethodIndex
  props_lookup : List (Option (Nat × Nat))
  events_lookup : List (Option (Nat × Nat))
deriving DecidableEq, Repr

/-- The `HasSemantics` coded index (association column). -/
inductive HasSemantics where
  | Event : Nat → HasSemantics
  | Property : Nat → HasSemantics
  | Null
deriving DecidableEq, Repr

/-- One row of the `MethodSemantics` table; `method` is a 1-based `MethodDef`
index. -/
structure MethodSemanticsRow where
  semantics : Nat
  method : Nat
  association : HasSemantics
deriving DecidableEq, Repr

/-- `dll.rs` 1175-1183: the renumbering applied to every entry of the global
`methods` vector when the method at `internal_idx` of type `parent_type` is
removed — `Method(i)` entries of the same type with `i > internal_idx` are
decremented. -/
def dec_member (parent_type internal_idx : Nat) (m : MethodIndex) : MethodIndex :=
  if m.parent_type = parent_type then
    match m.member with
    | .Method i =>
      if internal_idx < i then { m with member := .Method (i - 1) } else m
    | _ => m
  else m

/-- `extract_method!` (`dll.rs` 1168-1187): remove the method denoted by
`midx` from its type's top-level list, renumber the lookup vector, and return
the removed method.  A non-`Method` member index hits `unreachable!()`; an
out-of-bounds `parent_type` (`&mut types[..]`) or internal index
(`Vec::remove`) panics. -/
def extract_method (s : SemState) (midx : MethodIndex) :
    ROutcome (Nat × SemState) :=
  match midx.member with
  | .Method internal_idx =>
    match s.type_methods.get? midx.parent_type with
    | none => .panic
    | some parent_methods =>
      match parent_methods.get? internal_idx with
      | none => .panic
      | some meth =>
        .ok (meth,
          { s with
            methods := s.methods.map (dec_member midx.parent_type internal_idx),
            type_methods := s.type_methods.set midx.parent_type
              (parent_methods.eraseIdx internal_idx) })
  | _ => .panic

/-- `dll.rs` 1269-1316: after extraction, attach the removed method `new_meth`
according to the row's association and semantics flags.  The target event or
property is looked up in the type of the **method** (`parent`, i.e.
`method_idx.parent_type`); the type component of the `events` / `properties`
lookup entry is discarded by the source (`let &(_, internal_idx) = ..`).
An unrecognized flag combination falls through both `if` chains: the row is
processed, the method stays extracted, and nothing is attached. -/
def semantics_assoc (raw_idx : Nat) (method_idx : MethodIndex) (new_meth : Nat)
    (row : MethodSemanticsRow) (s1 : SemState) : ROutcome SemState :=
  match row.association with
  | .Event i =>
    let idx := usize_sub1 i
    match s1.events_lookup.get? idx with
    | none => .error "invalid event index for method semantics"
    | some none => .uninit
    | some (some pair) =>
      match s1.type_events.get? method_idx.parent_type with
      | none => .panic
      | some events =>
        match events.get? pair.2 with
        | none => .panic
        | some ev =>
          match check_bitmask row.semantics 0x20,
              check_bitmask row.semantics 0x4 with
          | true, _ =>
            .ok { s1 with
              type_events := s1.type_events.set method_idx.parent_type
                (events.set pair.2 { ev with raise_event := some new_meth }),
              methods := s1.methods.set raw_idx
                { parent_type := method_idx.parent_type,
                  member := .EventRaise pair.2 } }
          | false, true =>
            .ok { s1 with
              type_events := s1.type_events.set method_idx.parent_type
                (events.set pair.2 { ev with other := ev.other ++ [new_meth] }),
              methods := s1.methods.set raw_idx
                { parent_type := method_idx.parent_type,
                  member := .EventOther pair.2 ev.other.length } }
          | false, false => .ok s1
  | .Property i =>
    let idx := usize_sub1 i
    match s1.props_lookup.get? idx with
    | none => .error "invalid property index for method semantics"
    | some none => .uninit
    | some (some pair) =>
      match s1.type_props.get? method_idx.parent_type with
      | none => .panic
      | some props =>
        match props.get? pair.2 with
        | none => .panic
        | some p =>
          match check_bitmask row.semantics 0x1,
              check_bitmask row.semantics 0x2,
              check_bitmask row.semantics 0x4 with
          | true, _, _ =>
            .ok { s1 with
              type_props := s1.type_props.set method_idx.parent_type
                (props.set pair.2 { p with setter := some new_meth }),
              methods := s1.methods.set raw_idx
                { parent_type := method_idx.parent_type,
                  member := .PropertySetter pair.2 } }
          | false, true, _ =>
            .ok { s1 with
              type_props := s1.type_props.set method_idx.parent_type
                (props.set pair.2 { p with getter := some new_meth }),
              methods := s1.methods.set raw_idx
                { parent_type := method_idx.parent_type,
                  member := .PropertyGetter pair.2 } }
          | false, false, true =>
            .ok { s1 with
              type_props := s1.type_props.set method_idx.parent_type
                (props.set pair.2 { p with other := p.other ++ [new_meth] }),
              methods := s1.methods.set raw_idx
                { parent_type := method_idx.parent_type,
                  member := .PropertyOther pair.2 p.other.length } }
          | false, false, false => .ok s1
  | .Null => .error "invalid null index for method semantics"

/-- `dll.rs` 1254-1317: one iteration of the
`for s in &tables.method_semantics` loop — look up the method, extract it
unconditionally, then attach it per the association. -/
def semantics_step (s : SemState) (row : MethodSemanticsRow) :
    ROutcome SemState :=
  let raw_idx := usize_sub1 row.method
  match s.methods.get? raw_idx with
  | none => .error "invalid method index for method semantics"
  | some method_idx =>
    match extract_method s method_idx with
    | .error e => .error e
    | .panic => .panic
    | .uninit => .uninit
    | .ok pr => semantics_assoc raw_idx method_idx pr.1 row pr.2

/-- The whole remaining-method-semantics loop of `dll.rs` 1254-1317. -/
def semantics_pass : SemState → List MethodSemanticsRow → ROutcome SemState
  | s, [] => .ok s
  | s, row :: rest =>
    match semantics_step s row with
    | .ok s1 => semantics_pass s1 rest
    | .error e => .error e
    | .panic => .panic
    | .uninit => .uninit

def opt_count : Option Nat → Nat
  | none => 0
  | some _ => 1

/-- Number of methods held by one property (getter, setter, others). -/
def prop_count (p : PropertySlots) : Nat :=
  opt_count p.getter + opt_count p.setter + p.other.length

/-- Number of methods held by one event (add, remove, raise, others). -/
def event_count (e : EventSlots) : Nat :=
  opt_count e.add_listener + opt_count e.remove_listener +
    opt_count e.raise_event + e.other.length

/-- Total number of methods present in the graph: top-level method lists plus
every property and event slot. -/
def count_state (s : SemState) : Nat :=
  (s.type_methods.map List.length).sum +
    (s.type_props.map fun ps => (ps.map prop_count).sum).sum +
    (s.type_events.map fun es => (es.map event_count).sum).sum

/-- The conditions under which one `MethodSemantics` row conserves the total
method count, stated against the state the association part runs on: the
association resolves to an existing event/property of the method's parent
type, and the flags select a recognized role whose single slot (raise /
setter / getter) is still empty; pushes onto `other` are always conservative.
(Spec-side predicate, not part of the source.) -/
def assoc_conservative (method_idx : MethodIndex) (row : MethodSemanticsRow)
    (st : SemState) : Bool :=
  match row.association with
  | .Event i =>
    match st.events_lookup.get? (usize_sub1 i) with
    | some (some pair) =>
      match st.type_events.get? method_idx.parent_type with
      | some events =>
        match events.get? pair.2 with
        | some ev =>
          match check_bitmask row.semantics 0x20,
              check_bitmask row.semantics 0x4 with
          | true, _ => ev.raise_event.isNone
          | false, true => true
          | false, false => false
        | none => false
      | none => false
    | _ => false
  | .Property i =>
    match st.props_lookup.get? (usize_sub1 i) with
    | some (some pair) =>
      match st.type_props.get? method_idx.parent_type with
      | some props =>
        match props.get? pair.2 with
        | some p =>
          match check_bitmask row.semantics 0x1,
              check_bitmask row.semantics 0x2,
              check_bitmask row.semantics 0x4 with
          | true, _, _ => p.setter.isNone
          | false, true, _ => p.getter.isNone
          | false, false, true => true
          | false, false, false => false
        | none => false
      | none => false
    | _ => false
  | .Null => false

/-- One row is conservative at state `s` when its method is still in `Method`
position and the association part is conservative (extraction does not touch
the fields `assoc_conservative` reads). -/
def step_conservative (s : SemState) (row : MethodSemanticsRow) : Bool :=
  match s.methods.get? (usize_sub1 row.method) with
  | none => false
  | some method_idx => assoc_conservative method_idx row s

/-- All rows of the list are conservative at the intermediate state at which
the pass processes them. -/
def rows_conservative : SemState → List MethodSemanticsRow → Bool
  | _, [] => true
  | s, row :: rest =>
    step_conservative s row &&
      match semantics_step s row with
      | .ok s1 => rows_conservative s1 rest
      | _ => false

theorem sum_set_add (l : List Nat) (i x : Nat) (h : i < l.length) :
    (l.set i x).sum + l.get ⟨i, h⟩ = l.sum + x := by
  induction l generalizing i with
  | nil => cases h
  | cons a t ih =>
    cases i with
    | zero => simp [List.set]; omega
    | succ n =>
      have hn : n < t.length := Nat.lt_of_succ_lt_succ h
      have := ih n hn
      simp only [List.set, List.sum_cons, List.get]
      omega

theorem nested_sum_set {α : Type} (f : α → Nat) (outer : List (List α))
    (t : Nat) (inner : List α) (i : Nat) (x : α)
    (houter : outer.get? t = some inner) (hi : i < inner.length) :
    ((outer.set t (inner.set i x)).map fun l => (l.map f).sum).sum +
        f (inner.get ⟨i, hi⟩) =
      (outer.map fun l => (l.map f).sum).sum + f x := by
  obtain ⟨ht, hget⟩ := List.get?_eq_some.mp houter
  have hi' : i < (inner.map f).length := by simpa using hi
  have hinner : ((inner.set i x).map f).sum + f (inner.get ⟨i, hi⟩) =
      (inner.map f).sum + f x := by
    have h1 := sum_set_add (inner.map f) i (f x) hi'
    rw [← List.map_set] at h1
    rwa [List.get_map] at h1
  have ht' : t < (outer.map fun l => (l.map f).sum).length := by simpa using ht
  have houter' := sum_set_add (outer.map fun l => (l.map f).sum) t
    ((inner.set i x).map f).sum ht'
  rw [← List.map_set] at houter'
  rw [List.get_map] at houter'
  rw [hget] at houter'
  omega

/-- A successful extraction removes exactly one method from the top-level
lists and leaves properties, events and both lookup vectors untouched. -/
theorem extract_method_ok {s : SemState} {midx : MethodIndex} {m : Nat}
    {s1 : SemState} (h : extract_method s midx = .ok (m, s1)) :
    count_state s1 + 1 = count_state s ∧
    s1.type_props = s.type_props ∧
    s1.type_events = s.type_events ∧
    s1.props_lookup = s.props_lookup ∧
    s1.events_lookup = s.events_lookup := by
  unfold extract_method at h
  cases hmem : midx.member <;> rw [hmem] at h <;> dsimp only at h <;>
    try exact ROutcome.noConfusion h
  case Method internal_idx =>
    cases hpm : s.type_methods.get? midx.parent_type <;> rw [hpm] at h <;>
      dsimp only at h
    · exact ROutcome.noConfusion h
    case some parent_methods =>
      cases hm : parent_methods.get? internal_idx <;> rw [hm] at h <;>
        dsimp only at h
      · exact ROutcome.noConfusion h
      case some meth =>
        cases h
        refine ⟨?_, rfl, rfl, rfl, rfl⟩
        unfold count_state
        dsimp only
        obtain ⟨hlt, hget⟩ := List.get?_eq_some.mp hpm
        obtain ⟨hilt, -⟩ := List.get?_eq_some.mp hm
        have hlt' : midx.parent_type < (s.type_methods.map List.length).length := by
          simpa using hlt
        have hsum := sum_set_add (s.type_methods.map List.length)
          midx.parent_type (parent_methods.eraseIdx internal_idx).length hlt'
        rw [← List.map_set] at hsum
        rw [List.get_map] at hsum
        rw [hget] at hsum
        have herase := List.length_eraseIdx_of_lt hilt
        omega

/-- A conservative association step adds the extracted method to exactly one
slot: the total count grows by one. -/
theorem semantics_assoc_count {raw_idx : Nat} {midx : MethodIndex} {nm : Nat}
    {row : MethodSemanticsRow} {s1 s2 : SemState}
    (hcons : assoc_conservative midx row s1 = true)
    (hstep : semantics_assoc raw_idx midx nm row s1 = .ok s2) :
    count_state s2 = count_state s1 + 1 := by
  unfold semantics_assoc at hstep
  unfold assoc_conservative at hcons
  cases hassoc : row.association <;> rw [hassoc] at hstep hcons <;>
    try dsimp only at hstep hcons
  case Null => exact ROutcome.noConfusion hstep
  case Event i =>
    cases hel : s1.events_lookup.get? (usize_sub1 i) <;>
      rw [hel] at hstep hcons <;> try dsimp only at hstep hcons
    · exact ROutcome.noConfusion hstep
    case some o =>
      cases o <;> try dsimp only at hstep hcons
      · exact ROutcome.noConfusion hstep
      case some pair =>
        cases hev : s1.type_events.get? midx.parent_type <;>
          rw [hev] at hstep hcons <;> try dsimp only at hstep hcons
        · exact ROutcome.noConfusion hstep
        case some events =>
          cases hev2 : events.get? pair.2 <;>
            rw [hev2] at hstep hcons <;> try dsimp only at hstep hcons
          · exact ROutcome.noConfusion hstep
          case some ev =>
            obtain ⟨hi, hgetev⟩ := List.get?_eq_some.mp hev2
            cases hb20 : check_bitmask row.semantics 0x20 <;>
              rw [hb20] at hstep hcons <;> try dsimp only at hstep hcons
            case true =>
              cases hstep
              unfold count_state
              dsimp only
              have key := nested_sum_set event_count s1.type_events
                midx.parent_type events pair.2
                { ev with raise_event := some nm } hev hi
              rw [hgetev] at key
              have hnone : ev.raise_event = none :=
                Option.isNone_iff_eq_none.mp hcons
              have hadd : event_count { ev with raise_event := some nm } =
                  event_count ev + 1 := by
                simp [event_count, opt_count, hnone] <;> omega
              omega
            case false =>
              cases hb4 : check_bitmask row.semantics 0x4 <;>
                rw [hb4] at hstep hcons <;> try dsimp only at hstep hcons
              · exact Bool.noConfusion hcons
              case true =>
                cases hstep
                unfold count_state
                dsimp only
                have key := nested_sum_set event_count s1.type_events
                  midx.parent_type events pair.2
                  { ev with other := ev.other ++ [nm] } hev hi
                rw [hgetev] at key
                have hadd : event_count { ev with other := ev.other ++ [nm] } =
                    event_count ev + 1 := by
                  simp [event_count] <;> omega
                omega
  case Property i =>
    cases hel : s1.props_lookup.get? (usize_sub1 i) <;>
      rw [hel] at hstep hcons <;> try dsimp only at hstep hcons
    · exact ROutcome.noConfusion hstep
    case some o =>
      cases o <;> try dsimp only at hstep hcons
      · exact ROutcome.noConfusion hstep
      case some pair =>
        cases hpv : s1.type_props.get? midx.parent_type <;>
          rw [hpv] at hstep hcons <;> try dsimp only at hstep hcons
        · exact ROutcome.noConfusion hstep
        case some props =>
          cases hpv2 : props.get? pair.2 <;>
            rw [hpv2] at hstep hcons <;> try dsimp only at hstep hcons
          · exact ROutcome.noConfusion hstep
          case some p =>
            obtain ⟨hi, hgetp⟩ := List.get?_eq_some.mp hpv2
            cases hb1 : check_bitmask row.semantics 0x1 <;>
              rw [hb1] at hstep hcons <;> try dsimp only at hstep hcons
            case true =>
              cases hstep
              unfold count_state
              dsimp only
              have key := nested_sum_set prop_count s1.type_props
                midx.parent_type props pair.2
                { p with setter := some nm } hpv hi
              rw [hgetp] at key
              have hnone : p.setter = none :=
                Option.isNone_iff_eq_none.mp hcons
              have hadd : prop_count { p with setter := some nm } =
                  prop_count p + 1 := by
                simp [prop_count, opt_count, hnone] <;> omega
              omega
            case false =>
              cases hb2 : check_bitmask row.semantics 0x2 <;>
                rw [hb2] at hstep hcons <;> try dsimp only at hstep hcons
              case true =>
                cases hstep
                unfold count_state
                dsimp only
                have key := nested_sum_set prop_count s1.type_props
                  midx.parent_type props pair.2
                  { p with getter := some nm } hpv hi
                rw [hgetp] at key
                have hnone : p.getter = none :=
                  Option.isNone_iff_eq_none.mp hcons
                have hadd : prop_count { p with getter := some nm } =
                    prop_count p + 1 := by
                  simp [prop_count, opt_count, hnone] <;> omega
                omega
              case false =>
                cases hb4 : check_bitmask row.semantics 0x4 <;>
                  rw [hb4] at hstep hcons <;> try dsimp only at hstep hcons
                · exact Bool.noConfusion hcons
                case true =>
                  cases hstep
                  unfold count_state
                  dsimp only
                  have key := nested_sum_set prop_count s1.type_props
                    midx.parent_type props pair.2
                    { p with other := p.other ++ [nm] } hpv hi
                  rw [hgetp] at key
                  have hadd : prop_count { p with other := p.other ++ [nm] } =
                      prop_count p + 1 := by
                    simp [prop_count] <;> omega
                  omega

theorem assoc_conservative_congr (midx : MethodIndex)
    (row : MethodSemanticsRow) {s t : SemState}
    (hp : s.type_props = t.type_props) (he : s.type_events = t.type_events)
    (hpl : s.props_lookup = t.props_lookup)
    (hel : s.events_lookup = t.events_lookup) :
    assoc_conservative midx row s = assoc_conservative midx row t := by
  unfold assoc_conservative
  rw [hp, he, hpl, hel]

/-- One conservative `MethodSemantics` row preserves the total method count:
extraction removes one method, the association attaches exactly one. -/
theorem semantics_step_count {s : SemState} {row : MethodSemanticsRow}
    {s2 : SemState} (hcons : step_conservative s row = true)
    (hstep : semantics_step s row = .ok s2) :
    count_state s2 = count_state s := by
  unfold semantics_step at hstep
  unfold step_conservative at hcons
  dsimp only at hstep
  cases hm : s.methods.get? (usize_sub1 row.method) <;>
    rw [hm] at hstep hcons <;> try dsimp only at hstep hcons
  · exact ROutcome.noConfusion hstep
  case some midx =>
    cases hex : extract_method s midx with
    | error e => rw [hex] at hstep; exact ROutcome.noConfusion hstep
    | panic => rw [hex] at hstep; exact ROutcome.noConfusion hstep
    | uninit => rw [hex] at hstep; exact ROutcome.noConfusion hstep
    | ok pr =>
      rw [hex] at hstep
      dsimp only at hstep
      have hex2 : extract_method s midx = .ok (pr.1, pr.2) := by rw [hex]
      obtain ⟨hcount, hp, he, hpl, hel⟩ := extract_method_ok hex2
      have hcons2 : assoc_conservative midx row pr.2 = true :=
        (assoc_conservative_congr midx row hp he hpl hel).trans hcons
      have := semantics_assoc_count hcons2 hstep
      omega

/-- C3 (amended): the method-semantics pass conserves the total number of
methods (top-level lists plus every property/event slot) — and in particular,
starting from the state the methods pass builds (all `MethodDef` rows in the
top-level lists), the total equals `len(tables.methodDef)` — provided every
row is conservative at the state it is processed in: its method is still in
`Method` position, its association resolves, and its flags select a
recognized role whose single slot is still empty.  Without those hypotheses
the pass can silently drop methods (see the counterexample). -/
theorem c3_semantics_pass_conserves_count (s : SemState)
    (rows : List MethodSemanticsRow)
    (hcons : rows_conservative s rows = true) :
    (semantics_pass s rows).map count_state = .ok (count_state s) := by
  induction rows generalizing s with
  | nil => rfl
  | cons row rest ih =>
    unfold rows_conservative at hcons
    rw [Bool.and_eq_true] at hcons
    obtain ⟨hc1, hc2⟩ := hcons
    unfold semantics_pass
    cases hstep : semantics_step s row with
    | ok s1 =>
      rw [hstep] at hc2
      dsimp only at hc2
      have hcnt := semantics_step_count hc1 hstep
      rw [← hcnt]
      exact ih s1 hc2
    | error e => rw [hstep] at hc2; dsimp only at hc2; exact Bool.noConfusion hc2
    | panic => rw [hstep] at hc2; dsimp only at hc2; exact Bool.noConfusion hc2
    | uninit => rw [hstep] at hc2; dsimp only at hc2; exact Bool.noConfusion hc2

/-- Witness for C3 at a concrete input: one type with one method and one
empty property, one setter row; the pass succeeds and the count stays 1. -/
theorem c3_semantics_pass_conserves_count_witness :
    (semantics_pass
      { type_methods := [[10]],
        type_props := [[{ getter := none, setter := none, other := [] }]],
        type_events := [[]],
        methods := [⟨0, .Method 0⟩],
        props_lookup := [some (0, 0)],
        events_lookup := [] }
      [⟨1, 1, .Property 1⟩]).map count_state =
    .ok (count_state
      { type_methods := [[10]],
        type_props := [[{ getter := none, setter := none, other := [] }]],
        type_events := [[]],
        methods := [⟨0, .Method 0⟩],
        props_lookup := [some (0, 0)],
        events_lookup := [] }) :=
  c3_semantics_pass_conserves_count _ _ (by decide)

/-- C3 counterexample: the claim as stated is false.  A `MethodSemantics` row
whose flags match no recognized role for its association (here `semantics =
0`, association `Property(1)`) is still processed: the method is extracted
from the top-level list and then attached nowhere, so the pass succeeds while
the total method count drops from 1 (= `len(tables.methodDef)`) to 0. -/
theorem c3_counterexample :
    (semantics_pass
      { type_methods := [[10]],
        type_props := [[{ getter := none, setter := none, other := [] }]],
        type_events := [[]],
        methods := [⟨0, .Method 0⟩],
        props_lookup := [some (0, 0)],
        events_lookup := [] }
      [⟨0, 1, .Property 1⟩]).map count_state = .ok 0 ∧
    count_state
      { type_methods := [[10]],
        type_props := [[{ getter := none, setter := none, other := [] }]],
        type_events := [[]],
        methods := [⟨0, .Method 0⟩],
        props_lookup := [some (0, 0)],
        events_lookup := [] } = 1 := by
  decide

/-- C2 counterexample: the claim as stated is false.  Two setter rows for the
same property (methods 10 and 11): after the pass, the setter slot holds
method 11 — the method of the **second** row — not method 10 as "the first
row found takes effect and every subsequent one is ignored" would require. -/
theorem c2_counterexample :
    (semantics_pass
      { type_methods := [[10, 11]],
        type_props := [[{ getter := none, setter := none, other := [] }]],
        type_events := [[]],
        methods := [⟨0, .Method 0⟩, ⟨0, .Method 1⟩],
        props_lookup := [some (0, 0)],
        events_lookup := [] }
      [⟨1, 1, .Property 1⟩, ⟨1, 2, .Property 1⟩]).map SemState.type_props =
      .ok [[{ getter := none, setter := some 11, other := [] }]] ∧
    ¬ ((semantics_pass
      { type_methods := [[10, 11]],
        type_props := [[{ getter := none, setter := none, other := [] }]],
        type_events := [[]],
        methods := [⟨0, .Method 0⟩, ⟨0, .Method 1⟩],
        props_lookup := [some (0, 0)],
        events_lookup := [] }
      [⟨1, 1, .Property 1⟩, ⟨1, 2, .Property 1⟩]).map SemState.type_props =
      .ok [[{ getter := none, setter := some 10, other := [] }]]) := by
  decide

/-- C2 (amended): in the general method-semantics pass, rows of the same
semantic kind attaching to the same property are **all** applied in order:
each row's method is extracted from the top-level list and assigned to the
slot, overwriting whatever was there, so the slot ends up with the method of
the **last** such row (whatever the property's previous slot contents `g`,
`st`, `o` were) and the methods of earlier rows are dropped from the graph.
(Only event add/remove listeners, chosen in the earlier events pass via
`Iterator::position`, follow a first-row-wins rule.) -/
theorem c2_last_setter_wins (a b : Nat) (g st : Option Nat) (o : List Nat) :
    (semantics_pass
      { type_methods := [[a, b]],
        type_props := [[{ getter := g, setter := st, other := o }]],
        type_events := [[]],
        methods := [⟨0, .Method 0⟩, ⟨0, .Method 1⟩],
        props_lookup := [some (0, 0)],
        events_lookup := [] }
      [⟨1, 1, .Property 1⟩, ⟨1, 2, .Property 1⟩]).map SemState.type_props =
    .ok [[{ getter := g, setter := some b, other := o }]] := by
  rfl

/-! ## C10: determinism of `resolve` (`dll.rs` 134-2015)

`resolve` takes `&self` (the immutable parsed DLL backed by the input byte
buffer) and a `ResolveOptions` by value; its only side effects are `debug!` /
`warn!` log records.  The modelled pipeline below composes the passes embedded
above; the ambient state a run could in principle observe (the logger sink and
anything else mutable in the surroundings) is reified as an explicit `Env`
argument, and determinism is the statement that the returned value does not
depend on it. -/

/-- Ambient mutable state surrounding a `resolve` call: the log sink that
`debug!`/`warn!` append to, plus arbitrary other surroundings. -/
structure Env where
  log : List String
  ambient : Nat
deriving DecidableEq, Repr

/-- `ResolveOptions` (`dll.rs` 63-66). -/
structure ResolveOptions where
  skip_method_bodies : Bool
deriving DecidableEq, Repr

/-- The modelled columns of the parsed metadata tables (plus the intermediate
inputs of the later passes, in the shape the embedded passes consume them). -/
structure ResolveInput where
  type_def_flags : List Nat
  class_layout : List ClassLayoutRow
  nested_class : List NestedClassRow
  type_def_field_lists : List TypeDefFieldList
  fields_len : Nat
  field_layouts : List FieldLayoutRow
  method_impl_flags : List Nat
  generic_param_flags : List Nat
  sem_init : SemState
  method_semantics : List MethodSemanticsRow
  attr_ctx : AttrCtx
  custom_attributes : List CustomAttributeRow
  instr_offsets : List Nat
  exception_clauses : List RawExceptionClause
deriving DecidableEq, Repr

/-- The modelled resolution graph: the outputs of the embedded passes. -/
structure ResolutionModel where
  layouts : List Layout
  enclosers : List (Option Nat)
  fields_lookup : List (Option (Nat × Nat))
  field_layout_reads : List (Nat × Nat)
  method_bodies_decoded : List (BodyFormat × BodyManagement)
  variances : List Variance
  semantics : SemState
  attributes : List (AttrTarget × Attr)
  exceptions : List ExceptionClause
deriving DecidableEq, Repr

/-- Error-propagating map, as the `collect::<Result<Vec<_>>>()?` idiom. -/
def rmap_list (f : α → ROutcome β) : List α → ROutcome (List β)
  | [] => .ok []
  | a :: t => (f a).bind fun b => (rmap_list f t).map (b :: ·)

/-- The modelled `resolve` pipeline: the passes embedded above, run in source
order, each aborting the whole call on the first error. -/
def resolve_model_result (input : ResolveInput) (opts : ResolveOptions) :
    ROutcome ResolutionModel :=
  (rmap_list (fun p => decode_layout input.class_layout p.1 p.2)
      input.type_def_flags.enum).bind fun layouts =>
  (nested_class_pass (List.replicate input.type_def_flags.length none)
      input.nested_class).bind fun enclosers =>
  (fields_lookup_model input.type_def_field_lists input.fields_len).bind
    fun fields_lookup =>
  (rmap_list (field_layout_read fields_lookup) input.field_layouts).bind
    fun field_layout_reads =>
  (rmap_list (fun f => (body_format f).bind fun bf =>
      (body_management f).map ((bf, ·)))
      input.method_impl_flags).bind fun bodies =>
  (rmap_list decode_variance input.generic_param_flags).bind fun variances =>
  (semantics_pass input.sem_init input.method_semantics).bind fun sem =>
  (attributes_pass input.attr_ctx [] input.custom_attributes).bind fun attrs =>
  (if opts.skip_method_bodies then .ok []
   else rmap_list (decode_exception_clause input.instr_offsets)
     input.exception_clauses).bind fun excs =>
  .ok { layouts := layouts, enclosers := enclosers,
        fields_lookup := fields_lookup,
        field_layout_reads := field_layout_reads,
        method_bodies_decoded := bodies, variances := variances,
        semantics := sem, attributes := attrs, exceptions := excs }

/-- A `resolve` invocation in its surroundings: the returned value together
with the log after the call.  The environment flows only into the log. -/
def resolve_model (env : Env) (input : ResolveInput) (opts : ResolveOptions) :
    ROutcome ResolutionModel × List String :=
  (resolve_model_result input opts,
    env.log ++ ["resolving module", "resolved module"])

/-! ## Theorems for C8, C6, C1, C5, C7, C4, C9, C10 -/

/-- C8: for every `MethodDef` row, body-format is decoded from
`impl_flags & 0x3` as `0 → IL`, `1 → Native`, `3 → Runtime`, and value `2`
(OPTIL) causes a resolver error; body-management is decoded from
`impl_flags & 0x4` as `0 → Unmanaged` and `4 → Managed`. -/
theorem c8_body_format_management (f : Nat) :
    (f &&& 0x3 = 0x0 → body_format f = .ok .IL) ∧
    (f &&& 0x3 = 0x1 → body_format f = .ok .Native) ∧
    (f &&& 0x3 = 0x2 → (body_format f).isError = true) ∧
    (f &&& 0x3 = 0x3 → body_format f = .ok .Runtime) ∧
    (f &&& 0x4 = 0x0 → body_management f = .ok .Unmanaged) ∧
    (f &&& 0x4 = 0x4 → body_management f = .ok .Managed) := by
  refine ⟨?_, ?_, ?_, ?_, ?_, ?_⟩ <;> intro h <;>
    simp [body_format, body_management, h, ROutcome.isError]

/-- Witness for C8 at concrete inputs: `impl_flags = 1` decodes to `Native`
body format, `impl_flags = 6` has the OPTIL error and `Managed` management. -/
theorem c8_body_format_management_witness :
    body_format 1 = .ok .Native ∧
    (body_format 6).isError = true ∧
    body_management 6 = .ok .Managed ∧
    body_management 1 = .ok .Unmanaged := by
  exact ⟨(c8_body_format_management 1).2.1 (by decide),
         (c8_body_format_management 6).2.2.1 (by decide),
         (c8_body_format_management 6).2.2.2.2.2 (by decide),
         (c8_body_format_management 1).2.2.2.2.1 (by decide)⟩

/-- C6 (code bug): a `TypeDef` row whose raw flags have both layout bits set
(`flags & 0x18 = 0x18`, e.g. `flags = 0x18`, directly representable in the
input byte buffer) reaches the `_ => unreachable!()` arm of the layout match
and panics, contrary to the claim that decoding always completes through one
of the three named cases.  The other three bit patterns do complete. -/
theorem c6_layout_0x18_panics :
    decode_layout [] 0 0x18 = .panic ∧
    decode_layout [] 0 0x00 = .ok .Automatic ∧
    decode_layout [] 0 0x08 = .ok (.Sequential none) ∧
    decode_layout [] 0 0x10 = .ok (.Explicit none) := by
  decide

/-- C1 (code bug): the resolver decodes variance bits `0x2` to `Invariant`
(the `0x2` arm of the source reads `Variance::Invariant`), not to
`Contravariant` as the claim states; the other arms match the claim
(`0x0 → Invariant`, `0x1 → Covariant`, `0x3 → error`). -/
theorem c1_variance_0x2_is_invariant :
    decode_variance 0x2 = .ok .Invariant ∧
    decode_variance 0x2 ≠ .ok .Contravariant ∧
    decode_variance 0x0 = .ok .Invariant ∧
    decode_variance 0x1 = .ok .Covariant ∧
    (decode_variance 0x3).isError = true := by
  decide

/-- C7: exception-handling clause flags map `0 → TypedException`,
`1 → Filter`, `2 → Finally`, `4 → Fault` and any other value causes a resolver
error; byte offsets are translated through the instruction-offset table
(`get_offset!`), every successful translation being either a position whose
recorded byte offset equals the given one, or — in the special case
`offset = maxOffset + 1` — the index `len(instrs)`. -/
theorem c7_exception_clauses :
    (∀ (offs : List Nat) (byte max : Nat), offs.max? = some max →
      byte = max + 1 → get_offset offs byte = .ok offs.length) ∧
    (∀ (offs : List Nat) (byte i : Nat), get_offset offs byte = .ok i →
      i = offs.length ∨ offs.get? i = some byte) ∧
    (∀ (offs : List Nat) (c : RawExceptionClause) (e : ExceptionClause),
      decode_exception_clause offs c = .ok e →
      (c.flags = 0 ∧ e.kind = .TypedException c.class_token_or_filter) ∨
      (c.flags = 1 ∧ ∃ o, e.kind = .Filter o) ∨
      (c.flags = 2 ∧ e.kind = .Finally) ∨
      (c.flags = 4 ∧ e.kind = .Fault)) ∧
    (∀ (offs : List Nat) (c : RawExceptionClause),
      c.flags ≠ 0 → c.flags ≠ 1 → c.flags ≠ 2 → c.flags ≠ 4 →
      (decode_exception_clause offs c).isError = true) := by
  refine ⟨?_, ?_, ?_, ?_⟩
  · intro offs byte max hmax hbyte
    unfold get_offset
    rw [hmax]
    simp [hbyte]
  · intro offs byte i h
    unfold get_offset at h
    cases hmax : offs.max? with
    | none => rw [hmax] at h; cases h
    | some mx =>
      rw [hmax] at h
      dsimp only at h
      by_cases hb : byte = mx + 1
      · rw [if_pos hb] at h
        cases h
        exact Or.inl rfl
      · rw [if_neg hb] at h
        cases hidx : offs.findIdx? (fun j => j = byte) <;> rw [hidx] at h
        · cases h
        · cases h
          obtain ⟨hlt, hp, -⟩ := List.findIdx?_eq_some_iff_getElem.mp hidx
          right
          rw [List.get?_eq_get hlt]
          exact congrArg some (of_decide_eq_true hp)
  · intro offs c e h
    unfold decode_exception_clause decode_exception_kind at h
    rcases hf : c.flags with _ | _ | _ | _ | _ | n <;> rw [hf] at h
    · simp only [ROutcome.bind] at h
      exact Or.inl ⟨rfl, attach_clause_offsets_kind h⟩
    · cases hg : get_offset offs c.class_token_or_filter <;>
        rw [hg] at h <;> simp only [ROutcome.map, ROutcome.bind] at h <;>
        try exact ROutcome.noConfusion h
      case ok o =>
        exact Or.inr (Or.inl ⟨rfl, o, attach_clause_offsets_kind h⟩)
    · simp only [ROutcome.bind] at h
      exact Or.inr (Or.inr (Or.inl ⟨rfl, attach_clause_offsets_kind h⟩))
    · simp only [ROutcome.bind] at h
      exact ROutcome.noConfusion h
    · simp only [ROutcome.bind] at h
      exact Or.inr (Or.inr (Or.inr ⟨rfl, attach_clause_offsets_kind h⟩))
    · simp only [ROutcome.bind] at h
      exact ROutcome.noConfusion h
  · intro offs c h0 h1 h2 h4
    unfold decode_exception_clause decode_exception_kind
    rcases hf : c.flags with _ | _ | _ | _ | _ | n
    · exact absurd hf h0
    · exact absurd hf h1
    · exact absurd hf h2
    · simp [ROutcome.bind, ROutcome.isError]
    · exact absurd hf h4
    · simp [ROutcome.bind, ROutcome.isError]

/-- Witness for C7 at concrete inputs, with instruction offsets `[0, 2, 5]`:
the special case `5 + 1 → len = 3`; a translated offset (`2 → index 1`) is
either the end index or maps back to its byte offset; a concrete `Finally`
clause decodes with kind `Finally`; flag value `3` produces a resolver
error. -/
theorem c7_exception_clauses_witness :
    get_offset [0, 2, 5] 6 = .ok 3 ∧
    (1 = ([0, 2, 5] : List Nat).length ∨
      ([0, 2, 5] : List Nat).get? 1 = some 2) ∧
    (((⟨2, 0, 2, 2, 3, 0⟩ : RawExceptionClause).flags = 0 ∧
        (⟨.Finally, 0, 1, 1, 1⟩ : ExceptionClause).kind =
          .TypedException (⟨2, 0, 2, 2, 3, 0⟩ : RawExceptionClause).class_token_or_filter) ∨
      ((⟨2, 0, 2, 2, 3, 0⟩ : RawExceptionClause).flags = 1 ∧
        ∃ o, (⟨.Finally, 0, 1, 1, 1⟩ : ExceptionClause).kind = .Filter o) ∨
      ((⟨2, 0, 2, 2, 3, 0⟩ : RawExceptionClause).flags = 2 ∧
        (⟨.Finally, 0, 1, 1, 1⟩ : ExceptionClause).kind = .Finally) ∨
      ((⟨2, 0, 2, 2, 3, 0⟩ : RawExceptionClause).flags = 4 ∧
        (⟨.Finally, 0, 1, 1, 1⟩ : ExceptionClause).kind = .Fault)) ∧
    (decode_exception_clause [0, 2, 5] ⟨3, 0, 1, 2, 1, 0⟩).isError = true := by
  refine ⟨?_, ?_, ?_, ?_⟩
  · exact c7_exception_clauses.1 [0, 2, 5] 6 5 (by decide) rfl
  · exact c7_exception_clauses.2.1 [0, 2, 5] 2 1 (by decide)
  · exact c7_exception_clauses.2.2.1 [0, 2, 5] ⟨2, 0, 2, 2, 3, 0⟩
      ⟨.Finally, 0, 1, 1, 1⟩ (by decide)
  · exact c7_exception_clauses.2.2.2 [0, 2, 5] ⟨3, 0, 1, 2, 1, 0⟩
      (by decide) (by decide) (by decide) (by decide)

/-- C4 (code bug): the "every slot is written exactly once before first read"
invariant that justifies `new_with_len!`'s `Vec::set_len` is violated by
reachable inputs.  With two `TypeDef` rows whose `field_list` columns are both
`2` and a single `Field` row, both owned field ranges are empty, so the fields
pass never writes slot 0 of the `fields` lookup vector — yet the ranges are
accepted and resolution proceeds; a `FieldLayout` row with `field = 1` then
reads the uninitialized slot (undefined behavior).  On a well-formed input
(one type owning the field) the slot is written and the read succeeds. -/
theorem c4_uninitialized_slot_read :
    fields_lookup_model [⟨2⟩, ⟨2⟩] 1 = .ok [none] ∧
    (fields_lookup_model [⟨2⟩, ⟨2⟩] 1).bind
      (fun lk => field_layout_read lk ⟨1, 0⟩) = .uninit ∧
    fields_lookup_model [⟨1⟩] 1 = .ok [some (0, 0)] ∧
    (fields_lookup_model [⟨1⟩] 1).bind
      (fun lk => field_layout_read lk ⟨1, 0⟩) = .ok (0, 0) := by
  decide

/-- C9 counterexample: the claim as stated is false.  A `CustomAttribute`
row with a `TypeSpec` parent does cause a resolver error when its constructor
coded index is `Null` (the constructor is decoded before the parent is
inspected, `dll.rs` 1540-1569), so "never causes resolve to return an error"
does not hold for those parent kinds. -/
theorem c9_counterexample :
    (attribute_step
      ⟨[], 0, 0, 0, 0, 0, 0, [], [], 0, 0, 0, 0, false, 0, 0, 0, 0, 0, []⟩
      [] ⟨.TypeSpec 1, .Null, 0⟩).isError = true := by
  decide

/-- C9 (amended): once the row's attribute value (constructor and optional
blob) decodes successfully, a parent coded index of `MethodSpec`,
`StandAloneSig` or `TypeSpec` never causes an error: the attribute is dropped
(with only a warning) and the pass state is left completely unchanged. -/
theorem c9_unsupported_parent_dropped (ctx : AttrCtx)
    (pushes : List (AttrTarget × Attr)) (row : CustomAttributeRow)
    (attr : Attr)
    (hparent : (∃ i, row.parent = .MethodSpec i) ∨
      (∃ i, row.parent = .StandAloneSig i) ∨ (∃ i, row.parent = .TypeSpec i))
    (hattr : decode_attr ctx row = .ok attr) :
    attribute_step ctx pushes row = .ok pushes := by
  unfold attribute_step
  rw [hattr]
  simp only [ROutcome.bind]
  rcases hparent with ⟨i, hp⟩ | ⟨i, hp⟩ | ⟨i, hp⟩ <;> rw [hp]

/-- Witness for C9 at a concrete input: a `MethodSpec`-parent row whose
constructor is the first method definition leaves the push list empty and
does not error. -/
theorem c9_unsupported_parent_dropped_witness :
    attribute_step
      ⟨[], 1, 0, 0, 0, 0, 0, [], [], 0, 0, 0, 0, false, 0, 0, 0, 0, 0, []⟩
      [] ⟨.MethodSpec 1, .MethodDef 1, 0⟩ = .ok [] :=
  c9_unsupported_parent_dropped
    ⟨[], 1, 0, 0, 0, 0, 0, [], [], 0, 0, 0, 0, false, 0, 0, 0, 0, 0, []⟩
    [] ⟨.MethodSpec 1, .MethodDef 1, 0⟩ ⟨.Definition 0, none⟩
    (Or.inl ⟨1, rfl⟩) (by decide)

/-- C10: `resolve` is deterministic — the returned value (resolution graph or
error) is a function of the parsed tables and the options alone.  Two
invocations of the modelled pipeline under arbitrarily different ambient
states return identical values: the environment can only be written to (the
log), never read.  (Reads of never-initialized lookup slots — see C4 — are
modelled as the deterministic `uninit` outcome; under defined behavior the
pass consults no state besides its inputs.) -/
theorem c10_resolve_deterministic (e₁ e₂ : Env) (input : ResolveInput)
    (opts : ResolveOptions) :
    (resolve_model e₁ input opts).1 = (resolve_model e₂ input opts).1 := rfl

/-- C5 counterexample: the claim as stated is false.  One `TypeDef` row and
the `NestedClass` row `(1, 1)` make the resolver record type 0 as its own
encloser (`encloser = Some(0)` with `e = n = 0`): the pass performs no
`e ≠ n` check. -/
theorem c5_counterexample :
    ¬ (∀ (types : List (Option Nat)) (rows : List NestedClassRow)
        (out : List (Option Nat)) (i e : Nat),
        nested_class_pass types rows = .ok out →
        out.get? i = some (some e) → e < out.length ∧ e ≠ i) := by
  intro h
  exact (h [none] [⟨1, 1⟩] [some 0] 0 0 rfl rfl).2 rfl

/-- C5 (amended): after a successful `NestedClass` pass starting from a state
whose enclosers are all in bounds (in `resolve` they are all `none`), every
nested type `n` has `types[n].encloser = Some(e)` with `e < len(types)`; the
source enforces no `e ≠ n` condition. -/
theorem c5_encloser_in_bounds (rows : List NestedClassRow)
    (types out : List (Option Nat))
    (hinv : ∀ x ∈ types, ∀ e, x = some e → e < types.length)
    (hok : nested_class_pass types rows = .ok out) :
    out.length = types.length ∧
    ∀ x ∈ out, ∀ e, x = some e → e < out.length := by
  induction rows generalizing types with
  | nil =>
    cases hok
    exact ⟨rfl, hinv⟩
  | cons r rs ih =>
    unfold nested_class_pass at hok
    cases hstep : nested_class_step types r <;> rw [hstep] at hok <;>
      try cases hok
    obtain ⟨i, e, he, rfl⟩ := nested_class_step_ok hstep
    have hlen : (types.set i (some e)).length = types.length :=
      List.length_set ..
    have := ih (types.set i (some e)) ?_ hok
    · exact ⟨this.1.trans hlen, this.2⟩
    · intro x hx f hf
      rw [hlen]
      rcases List.mem_or_eq_of_mem_set hx with hmem | rfl
      · exact hinv x hmem f hf
      · cases hf
        exact he

/-- Witness for C5 at a concrete input: two types, `NestedClass` row `(2, 1)`;
the pass yields `[none, some 0]`, whose sole encloser is in bounds. -/
theorem c5_encloser_in_bounds_witness :
    ([none, some 0] : List (Option Nat)).length =
      ([none, none] : List (Option Nat)).length ∧
    ∀ x ∈ ([none, some 0] : List (Option Nat)), ∀ e, x = some e →
      e < ([none, some 0] : List (Option Nat)).length :=
  c5_encloser_in_bounds [⟨2, 1⟩] [none, none] [none, some 0]
    (by rintro x hx e rfl; simp at hx) rfl

end DotnetDLL
